import Mathlib

/-!
Shallow embedding of the scribble repository's request-processing pipeline
(src/index.ts): the response sanitizer and category-conditional formatter of
processHandwrittenNote (lines 256-301), the /api/process-note endpoint's
input validation and error responses (lines 51-171), and the MCP tool gate
(lines 321-355).  Strings are modelled as lists of (Unicode) characters,
JSON values as an inductive type, JSON numbers as exact rationals.
-/

namespace Scribble

/-- Strings of the embedded program: lists of characters.  JS strings are
UTF-16 sequences; every character that matters here is a single code unit. -/
abbrev Str := List Char

/-- The opening curly-brace character. -/
def lbrace : Char := Char.ofNat 123

/-- The closing curly-brace character. -/
def rbrace : Char := Char.ofNat 125

/-- Whitespace characters recognized both by JSON and (among others) by
JavaScript's String.prototype.trim: space, tab, line feed, carriage return. -/
def isWsChar (c : Char) : Bool :=
  c = ' ' || c = '\t' || c = '\n' || c = '\r'

/-- ASCII lower-casing of one character, modelling the effect of
String.prototype.toLowerCase on the ASCII range (the only range the
category comparison against the ASCII literals "todo"/"task" can hit). -/
def toLowerChar (c : Char) : Char :=
  if 'A' ≤ c ∧ c ≤ 'Z' then Char.ofNat (c.toNat + 32) else c

/-- Lower-casing of a whole string, character by character. -/
def toLowerStr (s : Str) : Str := s.map toLowerChar

/-- String.prototype.startsWith with a one-character argument. -/
def startsWithChar (c : Char) : Str → Bool
  | [] => false
  | a :: _ => a = c

/-- Whether the first argument is a leading piece of the second
(String.prototype.startsWith with an arbitrary argument). -/
def hasPre : Str → Str → Bool
  | [], _ => true
  | _ :: _, [] => false
  | a :: as, b :: bs => if a = b then hasPre as bs else false

/-- String.prototype.includes: does the second string contain the first as a
contiguous substring. -/
def containsSub (nd : Str) : Str → Bool
  | [] => nd.isEmpty
  | c :: t => hasPre nd (c :: t) || containsSub nd t

/-- JavaScript's String.prototype.trim: drop whitespace from both ends. -/
def trimStr (s : Str) : Str :=
  ((s.dropWhile isWsChar).reverse.dropWhile isWsChar).reverse

/-- Auxiliary for splitting on a separator character: returns the piece up to
the first separator and the list of the remaining pieces. -/
def splitCAux (sep : Char) : Str → Str × List Str
  | [] => ([], [])
  | c :: rest =>
    let p := splitCAux sep rest
    if c = sep then ([], p.1 :: p.2) else (c :: p.1, p.2)

/-- String.prototype.split with a one-character separator.  Like in JS, the
result is never empty: splitting the empty string yields one empty piece. -/
def splitOnC (sep : Char) (s : Str) : List Str :=
  (splitCAux sep s).1 :: (splitCAux sep s).2

/-- Array.prototype.join with a one-character separator. -/
def joinC (sep : Char) : List Str → Str
  | [] => []
  | [l] => l
  | l :: ls => l ++ sep :: joinC sep ls

/-- JSON values, as produced by JSON.parse: numbers are modelled as exact
rationals (every JSON numeric literal denotes a rational). -/
inductive Json where
  | null : Json
  | bool (b : Bool) : Json
  | num (q : ℚ) : Json
  | str (s : Str) : Json
  | arr (elems : List Json) : Json
  | obj (fields : List (Str × Json)) : Json

/-- JavaScript truthiness of a JSON value: null, false, 0 and the empty
string are falsy, everything else (objects and arrays included) is truthy. -/
def truthy : Json → Bool
  | .null => false
  | .bool b => b
  | .num q => !(q = 0 : Bool)
  | .str s => !s.isEmpty
  | .arr _ => true
  | .obj _ => true

/-- Truthiness of an optional value; a missing field (undefined) is falsy. -/
def truthyOpt : Option Json → Bool
  | none => false
  | some j => truthy j

/-- Property lookup on a parsed JSON object.  JSON.parse keeps the last of
several bindings of the same key, so the lookup prefers later fields. -/
def getField (fields : List (Str × Json)) (k : Str) : Option Json :=
  match fields with
  | [] => none
  | (k2, v) :: rest =>
    match getField rest k with
    | some r => some r
    | none => if k2 = k then some v else none

/-- Property access on an arbitrary JSON value: objects look up the key,
every other value yields undefined (as JS property access on primitives
and arrays with these key names does). -/
def getFieldJ (j : Json) (k : Str) : Option Json :=
  match j with
  | .obj fields => getField fields k
  | _ => none

/-- The JS expression v || d for a possibly-undefined v: the value if it is
present and truthy, the default otherwise. -/
def orDefault (v : Option Json) (d : Json) : Json :=
  match v with
  | some j => if truthy j then j else d
  | none => d

/-- Is the value a string. -/
def isJStr : Json → Bool
  | .str _ => true
  | _ => false

/-- Is the value an array. -/
def isJArr : Json → Bool
  | .arr _ => true
  | _ => false

/-- Is the value a number. -/
def isJNum : Json → Bool
  | .num _ => true
  | _ => false

/-- The field names used by the sanitizer (index.ts lines 276-286). -/
def titleKey : Str := "title".toList

/-- Key of the content field. -/
def contentKey : Str := "content".toList

/-- Key of the category field. -/
def categoryKey : Str := "category".toList

/-- Key of the tags field. -/
def tagsKey : Str := "tags".toList

/-- Key of the dates field. -/
def datesKey : Str := "dates".toList

/-- Key of the contacts field. -/
def contactsKey : Str := "contacts".toList

/-- Key of the confidence field. -/
def confKey : Str := "confidence".toList

/-- Key of the raw_text field. -/
def rawKey : Str := "raw_text".toList

/-- Default title (index.ts line 277). -/
def untitledNote : Str := "Untitled Note".toList

/-- Default category (index.ts line 279). -/
def noteLit : Str := "note".toList

/-- The sanitized record built at index.ts lines 276-286.  Every field keeps
the dynamic (JSON) type it has in the JS object, which is what lets
type-incorrect upstream values flow through. -/
structure SanitizedNote where
  title : Json
  content : Json
  category : Json
  tags : Json
  dates : Json
  contacts : Json
  confidence : Json
  raw_text : Json

/-- Array.isArray coercion of index.ts lines 280-282: keep an actual array,
replace anything else by the empty array. -/
def arrOrEmpty (v : Option Json) : Json :=
  match v with
  | some (.arr xs) => .arr xs
  | _ => .arr []

/-- Confidence coercion of index.ts lines 283-284: a numeric value is clamped
into the unit interval, anything else becomes 0.8. -/
def confOf (v : Option Json) : Json :=
  match v with
  | some (.num q) => .num (max 0 (min 1 q))
  | _ => .num (0.8 : ℚ)

/-- The validate-and-sanitize step of processHandwrittenNote (index.ts lines
276-286), for an arbitrary parsed JSON value (property access on a non-object
yields undefined).  raw_text is extractedData.raw_text || extractedData.content
|| "" which, by associativity of ||, equals raw_text-or-(resolved content). -/
def sanitizeJson (j : Json) : SanitizedNote :=
  let contentVal := orDefault (getFieldJ j contentKey) (Json.str [])
  { title := orDefault (getFieldJ j titleKey) (Json.str untitledNote)
    content := contentVal
    category := orDefault (getFieldJ j categoryKey) (Json.str noteLit)
    tags := arrOrEmpty (getFieldJ j tagsKey)
    dates := arrOrEmpty (getFieldJ j datesKey)
    contacts := arrOrEmpty (getFieldJ j contactsKey)
    confidence := confOf (getFieldJ j confKey)
    raw_text := orDefault (getFieldJ j rawKey) contentVal }

/-- Sanitization of a parsed JSON object given by its field list. -/
def sanitizeFields (fields : List (Str × Json)) : SanitizedNote :=
  sanitizeJson (Json.obj fields)

/-- The unchecked-box marker glyph (U+2610) of index.ts line 294. -/
def boxU : Char := '☐'

/-- The checked-box marker glyph (U+2611) of index.ts line 293. -/
def boxC : Char := '☑'

/-- Literal "todo" compared against at index.ts line 289. -/
def todoLit : Str := "todo".toList

/-- Literal "task" compared against at index.ts line 289. -/
def taskLit : Str := "task".toList

/-- The trigger of index.ts line 289: the lower-cased category equals
"todo" or "task". -/
def isTodoCat (cat : Str) : Bool :=
  decide (toLowerStr cat = todoLit) || decide (toLowerStr cat = taskLit)

/-- The per-line transform of index.ts lines 291-297: trim the line; when the
trimmed line is non-empty and does not already start with a marker glyph,
the result is the box glyph, a space, and the trimmed line; otherwise the
original line is returned unchanged. -/
def lineStep (l : Str) : Str :=
  let t := trimStr l
  if !t.isEmpty && !startsWithChar boxU t && !startsWithChar boxC t then
    boxU :: ' ' :: t
  else l

/-- The content transform of index.ts lines 291-298: split on newlines, apply
the per-line transform, rejoin with newlines. -/
def formatContent (c : Str) : Str :=
  joinC '\n' ((splitOnC '\n' c).map lineStep)

/-- The category-conditional formatter on the dynamically-typed sanitized
record, with JavaScript error semantics made explicit: calling toLowerCase
on a non-string category, or split on a non-string content, throws a
TypeError, modelled as none (index.ts lines 289-299). -/
def formatSan (r : SanitizedNote) : Option SanitizedNote :=
  match r.category with
  | Json.str cat =>
    if isTodoCat cat then
      match r.content with
      | Json.str cs => some { r with content := Json.str (formatContent cs) }
      | _ => none
    else some r
  | _ => none

/-- The type-correct output contract of the pipeline (the spec's
ExtractedNote): all four text fields are strings, the three list fields are
sequences, confidence is a number. -/
structure ExtractedNote where
  title : Str
  content : Str
  category : Str
  tags : List Json
  dates : List Json
  contacts : List Json
  confidence : ℚ
  rawText : Str

/-- The category-conditional formatter on type-correct records
(index.ts lines 289-299): on a todo/task category the content is rewritten
line by line, otherwise the note passes through unchanged. -/
def format (n : ExtractedNote) : ExtractedNote :=
  if isTodoCat n.category then { n with content := formatContent n.content }
  else n

/-! ### Lemmas about splitting, trimming and the per-line transform -/

theorem splitCAux_no_sep (sep : Char) (s : Str) :
    sep ∉ (splitCAux sep s).1 ∧ ∀ l ∈ (splitCAux sep s).2, sep ∉ l := by
  induction s with
  | nil => simp [splitCAux]
  | cons c rest ih =>
    by_cases hc : c = sep
    · simp only [splitCAux, hc, if_pos rfl]
      refine ⟨by simp, ?_⟩
      intro l hl
      rcases List.mem_cons.mp hl with h | h
      · subst h; exact ih.1
      · exact ih.2 l h
    · simp only [splitCAux, if_neg hc]
      refine ⟨?_, ih.2⟩
      intro hmem
      rcases List.mem_cons.mp hmem with h | h
      · exact hc h.symm
      · exact ih.1 h

theorem splitCAux_of_no_sep (sep : Char) (s : Str) (h : sep ∉ s) :
    splitCAux sep s = (s, []) := by
  induction s with
  | nil => rfl
  | cons c rest ih =>
    have hc : c ≠ sep := fun hce => h (hce ▸ List.mem_cons_self c rest)
    have hr : sep ∉ rest := fun hm => h (List.mem_cons_of_mem c hm)
    simp [splitCAux, if_neg hc, ih hr]

theorem splitCAux_append_sep (sep : Char) (h rest : Str) (hh : sep ∉ h) :
    splitCAux sep (h ++ sep :: rest) = (h, (splitCAux sep rest).1 :: (splitCAux sep rest).2) := by
  induction h with
  | nil => simp [splitCAux]
  | cons c t ih =>
    have hc : c ≠ sep := fun hce => hh (hce ▸ List.mem_cons_self c t)
    have ht : sep ∉ t := fun hm => hh (List.mem_cons_of_mem c hm)
    simp [splitCAux, if_neg hc, ih ht]

theorem split_join (sep : Char) (ls : List Str) (hls : ls ≠ [])
    (hfree : ∀ l ∈ ls, sep ∉ l) : splitOnC sep (joinC sep ls) = ls := by
  induction ls with
  | nil => exact absurd rfl hls
  | cons l rest ih =>
    cases rest with
    | nil =>
      have : sep ∉ l := hfree l (List.mem_cons_self l [])
      simp [joinC, splitOnC, splitCAux_of_no_sep sep l this]
    | cons l2 rest2 =>
      have hl : sep ∉ l := hfree l (List.mem_cons_self l _)
      have hrest : ∀ x ∈ l2 :: rest2, sep ∉ x := fun x hx =>
        hfree x (List.mem_cons_of_mem l hx)
      have hjoin : joinC sep (l :: l2 :: rest2) = l ++ sep :: joinC sep (l2 :: rest2) := rfl
      have ihr := ih (by simp) hrest
      simp only [splitOnC] at ihr ⊢
      rw [hjoin, splitCAux_append_sep sep l _ hl]
      simpa using ihr

theorem mem_of_mem_trimStr {a : Char} {s : Str} (h : a ∈ trimStr s) : a ∈ s := by
  unfold trimStr at h
  have h1 := (List.dropWhile_sublist (l := (s.dropWhile isWsChar).reverse) isWsChar).mem
    (List.mem_reverse.mp h)
  exact (List.dropWhile_sublist isWsChar).mem (List.mem_reverse.mp h1)

theorem trimStr_reverse (s : Str) :
    (trimStr s).reverse = ((s.dropWhile isWsChar).reverse).dropWhile isWsChar := by
  unfold trimStr
  rw [List.reverse_reverse]

theorem dropWhile_cons_false {p : Char → Bool} :
    ∀ (l : Str) (a : Char) (r : Str), l.dropWhile p = a :: r → p a = false := by
  intro l
  induction l with
  | nil => intro a r h; cases h
  | cons c t ih =>
    intro a r h
    rw [List.dropWhile_cons] at h
    by_cases hc : p c
    · rw [if_pos hc] at h; exact ih a r h
    · rw [if_neg hc] at h
      cases h
      simpa using hc

theorem trimStr_reverse_head_not_ws {s : Str} (h : trimStr s ≠ []) :
    ∃ a r, (trimStr s).reverse = a :: r ∧ isWsChar a = false := by
  rcases hd : ((s.dropWhile isWsChar).reverse).dropWhile isWsChar with _ | ⟨a, r⟩
  · exfalso
    apply h
    have := trimStr_reverse s
    rw [hd] at this
    simpa using congrArg List.reverse this
  · exact ⟨a, r, by rw [trimStr_reverse, hd], dropWhile_cons_false _ a r hd⟩

theorem trim_box {t : Str} (h : ∃ a r, t.reverse = a :: r ∧ isWsChar a = false) :
    trimStr (boxU :: ' ' :: t) = boxU :: ' ' :: t := by
  obtain ⟨a, r, har, haw⟩ := h
  have ht : t = r.reverse ++ [a] := by
    rw [← List.reverse_reverse t, har]
    simp
  have h1 : (boxU :: ' ' :: t).dropWhile isWsChar = boxU :: ' ' :: t := by
    rw [List.dropWhile_cons]
    simp [show isWsChar boxU = false from by decide]
  have h2 : (boxU :: ' ' :: t).reverse = a :: (r ++ [' ', boxU]) := by
    rw [ht]
    simp
  unfold trimStr
  rw [h1, h2, List.dropWhile_cons, haw]
  simp only [Bool.false_eq_true, if_false]
  rw [ht]
  simp

theorem lineStep_no_nl {l : Str} (h : '\n' ∉ l) : '\n' ∉ lineStep l := by
  unfold lineStep
  by_cases hc : (!(trimStr l).isEmpty && !startsWithChar boxU (trimStr l)
      && !startsWithChar boxC (trimStr l)) = true
  · rw [if_pos hc]
    intro hmem
    rcases List.mem_cons.mp hmem with h1 | h1
    · exact absurd h1 (by decide)
    · rcases List.mem_cons.mp h1 with h2 | h2
      · exact absurd h2 (by decide)
      · exact h (mem_of_mem_trimStr h2)
  · rw [if_neg hc]
    exact h

theorem lineStep_idem (l : Str) : lineStep (lineStep l) = lineStep l := by
  by_cases hc : (!(trimStr l).isEmpty && !startsWithChar boxU (trimStr l)
      && !startsWithChar boxC (trimStr l)) = true
  · have hstep : lineStep l = boxU :: ' ' :: trimStr l := by
      unfold lineStep
      rw [if_pos hc]
    have hne : trimStr l ≠ [] := by
      intro hnil
      rw [hnil] at hc
      simp at hc
    have htrim : trimStr (boxU :: ' ' :: trimStr l) = boxU :: ' ' :: trimStr l :=
      trim_box (trimStr_reverse_head_not_ws hne)
    rw [hstep]
    unfold lineStep
    rw [htrim]
    simp [startsWithChar]
  · have hstep : lineStep l = l := by
      unfold lineStep
      rw [if_neg hc]
    rw [hstep, hstep]

theorem splitOnC_ne_nil (sep : Char) (s : Str) : splitOnC sep s ≠ [] := by
  simp [splitOnC]

theorem mem_splitOnC_no_sep (sep : Char) (s : Str) :
    ∀ l ∈ splitOnC sep s, sep ∉ l := by
  intro l hl
  rcases List.mem_cons.mp hl with h | h
  · subst h; exact (splitCAux_no_sep sep s).1
  · exact (splitCAux_no_sep sep s).2 l h

theorem formatContent_idem (c : Str) : formatContent (formatContent c) = formatContent c := by
  unfold formatContent
  have hfree : ∀ l ∈ (splitOnC '\n' c).map lineStep, '\n' ∉ l := by
    intro l hl
    rcases List.mem_map.mp hl with ⟨x, hx, rfl⟩
    exact lineStep_no_nl (mem_splitOnC_no_sep '\n' c x hx)
  have hne : (splitOnC '\n' c).map lineStep ≠ [] := by
    simp [splitOnC]
  rw [split_join '\n' _ hne hfree, List.map_map]
  congr 1
  exact List.map_congr_left fun a _ => lineStep_idem a

/-! ### A model of JSON.parse

A strict JSON parser over character lists, used where the source calls
JSON.parse (index.ts lines 103 and 270).  Recursion through nested values is
bounded by explicit fuel; jsonParse supplies more fuel than any input can
consume, and requires the whole input (up to trailing whitespace) to be one
JSON value, as JSON.parse does.  Escape sequences decode to the designated
code point (lone surrogates, which Lean's Char cannot carry, are the one
divergence from JS's UTF-16 strings; no claim depends on them). -/

/-- Value of a hexadecimal digit. -/
def hexDigitVal (c : Char) : Option Nat :=
  if '0' ≤ c ∧ c ≤ '9' then some (c.toNat - 48)
  else if 'a' ≤ c ∧ c ≤ 'f' then some (c.toNat - 87)
  else if 'A' ≤ c ∧ c ≤ 'F' then some (c.toNat - 55)
  else none

/-- Is the character a decimal digit. -/
def isDigitC (c : Char) : Bool := '0' ≤ c && c ≤ '9'

/-- Numeric value of a run of decimal digits. -/
def digitsToNat (ds : List Char) : Nat :=
  ds.foldl (fun a c => a * 10 + (c.toNat - 48)) 0

/-- Skip JSON insignificant whitespace. -/
def skipWs (s : Str) : Str := s.dropWhile isWsChar

/-- Decode a single-character escape; none if the escape is invalid. -/
def escChar (c : Char) : Option Char :=
  if c = '\"' then some '\"'
  else if c = '\\' then some '\\'
  else if c = '/' then some '/'
  else if c = 'b' then some (Char.ofNat 8)
  else if c = 'f' then some (Char.ofNat 12)
  else if c = 'n' then some '\n'
  else if c = 'r' then some '\r'
  else if c = 't' then some '\t'
  else none

/-- Parse the body of a JSON string after the opening quote, returning the
decoded characters and the input after the closing quote. -/
def parseStringBody : Str → Option (Str × Str)
  | [] => none
  | c :: rest =>
    if c = '\"' then some ([], rest)
    else if c = '\\' then
      match rest with
      | [] => none
      | e :: rest2 =>
        if e = 'u' then
          match rest2 with
          | h1 :: h2 :: h3 :: h4 :: rest3 =>
            match hexDigitVal h1, hexDigitVal h2, hexDigitVal h3, hexDigitVal h4 with
            | some a, some b, some c3, some d =>
              match parseStringBody rest3 with
              | some (tail, r) => some (Char.ofNat (a * 4096 + b * 256 + c3 * 16 + d) :: tail, r)
              | none => none
            | _, _, _, _ => none
          | _ => none
        else
          match escChar e with
          | some ch =>
            match parseStringBody rest2 with
            | some (tail, r) => some (ch :: tail, r)
            | none => none
          | none => none
    else if c.toNat < 32 then none
    else
      match parseStringBody rest with
      | some (tail, r) => some (c :: tail, r)
      | none => none

/-- Parse a nonempty digit run: its value, its length and the rest. -/
def parseDigits (s : Str) : Option (Nat × Nat × Str) :=
  match s.takeWhile isDigitC with
  | [] => none
  | ds => some (digitsToNat ds, ds.length, s.dropWhile isDigitC)

/-- Parse the integer part of a JSON number ('0', or a nonzero digit followed
by digits; leading zeros are rejected as JSON.parse rejects them). -/
def parseIntPart (s : Str) : Option (Nat × Str) :=
  match s with
  | [] => none
  | c :: rest =>
    if c = '0' then
      match rest with
      | d :: _ => if isDigitC d then none else some (0, rest)
      | [] => some (0, [])
    else if isDigitC c then
      match parseDigits (c :: rest) with
      | some (v, _, r) => some (v, r)
      | none => none
    else none

/-- Parse an optional fraction part, as an exact rational in [0, 1). -/
def parseFracPart (s : Str) : Option (ℚ × Str) :=
  match s with
  | [] => some (0, [])
  | c :: rest =>
    if c = '.' then
      match parseDigits rest with
      | some (v, k, r) => some ((v : ℚ) / (10 : ℚ) ^ k, r)
      | none => none
    else some (0, c :: rest)

/-- Parse an optional exponent part: its sign, magnitude and the rest. -/
def parseExpPart (s : Str) : Option (Bool × Nat × Str) :=
  match s with
  | [] => some (false, 0, [])
  | c :: rest =>
    if c = 'e' ∨ c = 'E' then
      match rest with
      | [] => none
      | c2 :: r2 =>
        let signed : Bool × Str :=
          if c2 = '-' then (true, r2) else if c2 = '+' then (false, r2) else (false, rest)
        match parseDigits signed.2 with
        | some (v, _, r4) => some (signed.1, v, r4)
        | none => none
    else some (false, 0, c :: rest)

/-- Parse a JSON number as an exact rational. -/
def parseNumber (s : Str) : Option (ℚ × Str) :=
  let signed : Bool × Str :=
    match s with
    | c :: t => if c = '-' then (true, t) else (false, s)
    | [] => (false, s)
  match parseIntPart signed.2 with
  | none => none
  | some (ip, s2) =>
    match parseFracPart s2 with
    | none => none
    | some (fp, s3) =>
      match parseExpPart s3 with
      | none => none
      | some (negE, e, s4) =>
        let mag : ℚ := ((ip : ℚ) + fp) * (if negE then 1 / (10 : ℚ) ^ e else (10 : ℚ) ^ e)
        some ((if signed.1 then -mag else mag), s4)

/-- Literal "true". -/
def trueLit : Str := "true".toList

/-- Literal "false". -/
def falseLit : Str := "false".toList

/-- Literal "null". -/
def nullLit : Str := "null".toList

/-- Parsing modes of the recursive JSON parser: a value, the members of an
object, or the elements of an array. -/
inductive PMode where
  | pv : PMode
  | pm : PMode
  | pe : PMode

/-- Mode-tagged parser output. -/
inductive POut where
  | v (j : Json) : POut
  | ms (l : List (Str × Json)) : POut
  | es (l : List Json) : POut

/-- The recursive core of the JSON parser, structurally recursive on fuel so
that it reduces inside the kernel.  Mode pv parses one value after optional
whitespace; pm parses object members from the start of a key through the
closing brace; pe parses array elements through the closing bracket. -/
def parseF : Nat → PMode → Str → Option (POut × Str)
  | 0, _, _ => none
  | fuel + 1, PMode.pv, s =>
    match skipWs s with
    | [] => none
    | c :: rest =>
      if c = lbrace then
        match skipWs rest with
        | [] => none
        | c2 :: r2 =>
          if c2 = rbrace then some (POut.v (Json.obj []), r2)
          else
            match parseF fuel PMode.pm (c2 :: r2) with
            | some (POut.ms ms, r3) => some (POut.v (Json.obj ms), r3)
            | _ => none
      else if c = '[' then
        match skipWs rest with
        | [] => none
        | c2 :: r2 =>
          if c2 = ']' then some (POut.v (Json.arr []), r2)
          else
            match parseF fuel PMode.pe (c2 :: r2) with
            | some (POut.es xs, r3) => some (POut.v (Json.arr xs), r3)
            | _ => none
      else if c = '\"' then
        match parseStringBody rest with
        | some (cs, r2) => some (POut.v (Json.str cs), r2)
        | none => none
      else if hasPre trueLit (c :: rest) then some (POut.v (Json.bool true), (c :: rest).drop 4)
      else if hasPre falseLit (c :: rest) then some (POut.v (Json.bool false), (c :: rest).drop 5)
      else if hasPre nullLit (c :: rest) then some (POut.v Json.null, (c :: rest).drop 4)
      else
        match parseNumber (c :: rest) with
        | some (q, r2) => some (POut.v (Json.num q), r2)
        | none => none
  | fuel + 1, PMode.pm, s =>
    match s with
    | [] => none
    | c :: rest =>
      if c = '\"' then
        match parseStringBody rest with
        | some (k, r2) =>
          match skipWs r2 with
          | [] => none
          | c2 :: r3 =>
            if c2 = ':' then
              match parseF fuel PMode.pv r3 with
              | some (POut.v v, r4) =>
                match skipWs r4 with
                | [] => none
                | c3 :: r5 =>
                  if c3 = ',' then
                    match parseF fuel PMode.pm (skipWs r5) with
                    | some (POut.ms ms, r6) => some (POut.ms ((k, v) :: ms), r6)
                    | _ => none
                  else if c3 = rbrace then some (POut.ms [(k, v)], r5)
                  else none
              | _ => none
            else none
        | none => none
      else none
  | fuel + 1, PMode.pe, s =>
    match parseF fuel PMode.pv s with
    | some (POut.v v, r) =>
      match skipWs r with
      | [] => none
      | c :: r2 =>
        if c = ',' then
          match parseF fuel PMode.pe r2 with
          | some (POut.es xs, r3) => some (POut.es (v :: xs), r3)
          | _ => none
        else if c = ']' then some (POut.es [v], r2)
        else none
    | _ => none

/-- Parse one JSON value, returning it and the remaining input. -/
def parseVal (fuel : Nat) (s : Str) : Option (Json × Str) :=
  match parseF fuel PMode.pv s with
  | some (POut.v j, r) => some (j, r)
  | _ => none

/-- The model of JSON.parse: parse one value and require only whitespace to
remain; none models a thrown SyntaxError. -/
def jsonParse (s : Str) : Option Json :=
  match parseVal (2 * s.length + 2) s with
  | some (v, rest) => if (skipWs rest).isEmpty then some v else none
  | none => none

/-! ### The response sanitizer (index.ts lines 256-286) -/

/-- The JSON-extraction regex of index.ts line 266.  The greedy pattern
matches from the first opening brace to the last closing brace after it;
none when the text has no such span. -/
def braceSpan (s : Str) : Option Str :=
  match s.dropWhile (fun c => !(c = lbrace : Bool)) with
  | [] => none
  | t0 :: t =>
    match ((t0 :: t).reverse).dropWhile (fun c => !(c = rbrace : Bool)) with
    | [] => none
    | u0 :: u => some ((u0 :: u).reverse)

/-- Error text of index.ts line 259. -/
def emptyReplyMsg : Str := "Empty response from AI service".toList

/-- Error text of index.ts line 268 (re-thrown at line 272 with the
"Failed to parse AI response" framing; both are the same failure kind). -/
def noJsonMsg : Str := "No JSON found in response".toList

/-- Error text of index.ts line 272. -/
def parseFailMsg : Str := "Failed to parse AI response".toList

/-- The sanitize stage of processHandwrittenNote (index.ts lines 256-286):
reject an empty reply, locate the JSON-looking span, parse it, and coerce
field by field.  An error value models a thrown Error. -/
def sanitizeReply (reply : Str) : Except Str SanitizedNote :=
  if reply.isEmpty then .error emptyReplyMsg
  else
    match braceSpan reply with
    | none => .error noJsonMsg
    | some span =>
      match jsonParse span with
      | some j => .ok (sanitizeJson j)
      | none => .error parseFailMsg

/-- Is the outcome an error. -/
def isErrR (r : Except Str SanitizedNote) : Bool :=
  match r with
  | .error _ => true
  | .ok _ => false

/-! ### The /api/process-note endpoint (index.ts lines 51-171) and the MCP
tool gate (lines 321-355)

The endpoint is modelled up to the response triple that the claims observe:
HTTP status, whether the body is an error body, and whether it carries
processing_time_ms.  Everything inside the try block after input validation
(R2 storage, the Gemini call, sanitization and formatting) is abstracted as
one Except-valued outcome: an error value is a thrown Error with its message,
caught by the catch block at lines 155-170. -/

/-- A multipart file part: its bytes and declared MIME type.  file.size is
the byte length. -/
structure MPFile where
  bytes : List Nat
  ftype : Str

/-- A value of FormData.get: a string field or a file. -/
inductive FormVal where
  | fstr (s : Str) : FormVal
  | ffile (f : MPFile) : FormVal

/-- The two accepted request shapes: multipart form data (image and options
parts) or a JSON body (its image property, absent when the key is missing). -/
inductive ReqBody where
  | multipart (image : Option FormVal) (optionsStr : Option FormVal) : ReqBody
  | jsonBody (image : Option Json) : ReqBody

/-- The response facts the claims are about: status code, error body or not,
and presence of the processing_time_ms field in the body. -/
structure HttpReply where
  status : Nat
  isError : Bool
  hasProcessingTime : Bool

/-- The maximum image size of index.ts line 82: 10 * 1024 * 1024 bytes. -/
def maxImageBytes : Nat := 10 * 1024 * 1024

/-- MIME-type check target of index.ts line 87. -/
def imagePre : Str := "image/".toList

/-- The word matched in error messages at index.ts line 158. -/
def quotaLit : Str := "quota".toList

/-- Outcome mapping of the try/catch around the pipeline (index.ts lines
149-170): success responds 200 with processing_time_ms; a thrown error whose
message contains "quota" responds 429, any other 500, both with
processing_time_ms. -/
def runPipe (pipe : Except Str SanitizedNote) : HttpReply :=
  match pipe with
  | .ok _ => ⟨200, false, true⟩
  | .error msg => if containsSub quotaLit msg then ⟨429, true, true⟩ else ⟨500, true, true⟩

/-- The /api/process-note handler (index.ts lines 51-171).  The early
validation returns (missing API key at line 57; missing, non-file, oversized
or non-image multipart image at lines 70-89; invalid options JSON at line
105; falsy JSON-body image at line 113) each produce an error body WITHOUT
processing_time_ms; the pipeline phase responds through runPipe. -/
def processNoteRoute (apiKeyPresent : Bool) (body : ReqBody)
    (pipe : Except Str SanitizedNote) : HttpReply :=
  if !apiKeyPresent then ⟨500, true, false⟩
  else
    match body with
    | .multipart img opts =>
      match img with
      | none => ⟨400, true, false⟩
      | some (.fstr _) => ⟨400, true, false⟩
      | some (.ffile f) =>
        if f.bytes.length > maxImageBytes then ⟨400, true, false⟩
        else if !hasPre imagePre f.ftype then ⟨400, true, false⟩
        else
          match opts with
          | some (.fstr os) =>
            if (jsonParse os).isNone then ⟨400, true, false⟩ else runPipe pipe
          | _ => runPipe pipe
    | .jsonBody img =>
      if !truthyOpt img then ⟨400, true, false⟩ else runPipe pipe

/-- MIME type recovered from a data URL at index.ts lines 127 and 247:
imageData.split(";")[0].split(":")[1] (the empty string standing in for the
undefined that JS yields when there is no colon). -/
def mimeOfDataUrl (s : Str) : Str :=
  (splitOnC ':' ((splitOnC ';' s).headI)).getD 1 []

/-- The data-URL check target of the MCP tool (index.ts line 337). -/
def dataImagePre : Str := "data:image/".toList

/-- Outcomes of the MCP tool's pre-pipeline checks (index.ts lines 321-347):
an error-flagged text result for a missing API key or a non-data:image/
image string, or proceeding into processHandwrittenNote. -/
inductive McpGate where
  | noKey : McpGate
  | badFormat : McpGate
  | invokePipeline : McpGate

/-- The guard sequence of the process_handwritten_note MCP tool: key check,
then the data:image/ prefix check, before the pipeline runs. -/
def mcpToolGate (apiKeyPresent : Bool) (image : Str) : McpGate :=
  if !apiKeyPresent then McpGate.noKey
  else if !hasPre dataImagePre image then McpGate.badFormat
  else McpGate.invokePipeline

/-! ### Spec-side formulations of the formatter contract (spec section 4.4)

These two definitions follow the words of the specification, to be compared
with the formatter translated from the source.  specLineOrig is the
spec's original sentence: prepend the marker to the ORIGINAL
(untrimmed-prefix-preserving) line.  specLineTrimmed is the amended
sentence: prepend to the trimmed line. -/

/-- Case-insensitive equality of the spec: compare lower-casings. -/
def ciEqStr (a b : Str) : Bool := decide (toLowerStr a = toLowerStr b)

/-- The spec's trigger: category case-insensitively "todo" or "task". -/
def specTrigger (cat : Str) : Bool :=
  ciEqStr cat todoLit || ciEqStr cat taskLit

/-- The spec's per-line rule as written: empty-after-trim and already-marked
lines pass unchanged; otherwise the marker is prepended to the original
untrimmed line. -/
def specLineOrig (l : Str) : Str :=
  if trimStr l = [] then l
  else if startsWithChar boxC (trimStr l) then l
  else if startsWithChar boxU (trimStr l) then l
  else boxU :: ' ' :: l

/-- The amended per-line rule: the marker is prepended to the trimmed line
(leading and trailing whitespace of the line are discarded). -/
def specLineTrimmed (l : Str) : Str :=
  if trimStr l = [] then l
  else if startsWithChar boxC (trimStr l) then l
  else if startsWithChar boxU (trimStr l) then l
  else boxU :: ' ' :: trimStr l

/-- The formatter as described by the spec's own words (original version). -/
def formatSpecOrig (n : ExtractedNote) : ExtractedNote :=
  if specTrigger n.category then
    { n with content := joinC '\n' ((splitOnC '\n' n.content).map specLineOrig) }
  else n

/-- The formatter as described by the amended words. -/
def formatSpecTrimmed (n : ExtractedNote) : ExtractedNote :=
  if specTrigger n.category then
    { n with content := joinC '\n' ((splitOnC '\n' n.content).map specLineTrimmed) }
  else n

/-- The spec's trigger and the source's trigger agree: lower-casing both
sides of the comparison coincides with lower-casing the category only,
because the compared literals are already lower-case. -/
theorem specTrigger_eq_isTodoCat (cat : Str) : specTrigger cat = isTodoCat cat := by
  unfold specTrigger isTodoCat ciEqStr
  have h1 : toLowerStr todoLit = todoLit := by decide
  have h2 : toLowerStr taskLit = taskLit := by decide
  rw [h1, h2]

/-- The amended per-line rule coincides with the source's per-line step. -/
theorem specLineTrimmed_eq_lineStep (l : Str) : specLineTrimmed l = lineStep l := by
  unfold specLineTrimmed lineStep
  by_cases h0 : trimStr l = []
  · simp [h0, startsWithChar]
  · by_cases h1 : startsWithChar boxC (trimStr l) = true
    · simp [h0, h1]
    · by_cases h2 : startsWithChar boxU (trimStr l) = true
      · simp [h0, h1, h2]
      · simp [h0, h1, h2, List.isEmpty_iff]

/-! ### Claim theorems -/

theorem orDefault_of_truthy {v : Json} (d : Json) (ht : truthy v = true) :
    orDefault (some v) d = v := by
  have step : orDefault (some v) d = if truthy v = true then v else d := rfl
  rw [step, if_pos ht]

theorem orDefault_of_falsy {v : Option Json} (d : Json) (h : truthyOpt v = false) :
    orDefault v d = d := by
  cases v with
  | none => rfl
  | some j =>
    have hj : truthy j = false := h
    have step : orDefault (some j) d = if truthy j = true then j else d := rfl
    rw [step, hj]
    simp

theorem orDefault_cases (v : Option Json) (d : Json) :
    orDefault v d = d ∨ (truthy (orDefault v d) = true ∧ v = some (orDefault v d)) := by
  cases v with
  | none => exact Or.inl rfl
  | some j =>
    have step : orDefault (some j) d = if truthy j = true then j else d := rfl
    by_cases h : truthy j = true
    · right
      rw [step, if_pos h]
      exact ⟨h, rfl⟩
    · left
      rw [step, if_neg h]

theorem isJArr_arrOrEmpty (v : Option Json) : isJArr (arrOrEmpty v) = true := by
  cases v with
  | none => rfl
  | some j => cases j <;> rfl

theorem isJNum_confOf (v : Option Json) : isJNum (confOf v) = true := by
  cases v with
  | none => rfl
  | some j => cases j <;> rfl

/-- C1 counterexample: the reply object with a numeric title field is
sanitized to a record whose title is the number 5, not a string, so the
claim that all eight sanitized fields are type-correct is false. -/
theorem C1_counterexample :
    isJStr (sanitizeFields [(titleKey, Json.num 5)]).title = false ∧
    (sanitizeFields [(titleKey, Json.num 5)]).title = Json.num 5 :=
  ⟨rfl, rfl⟩

/-- C1 (amended): sanitize succeeds on every parsed JSON object (the empty
object included) and returns a record with all eight fields; tags, dates and
contacts are always arrays and confidence is always a number; title, content,
category and rawText are either strings or truthy values copied verbatim
from the corresponding reply fields (so they are strings whenever those
reply fields are strings or absent or falsy, but not in general). -/
theorem C1_sanitize_totality (fields : List (Str × Json)) :
    isJArr (sanitizeFields fields).tags = true ∧
    isJArr (sanitizeFields fields).dates = true ∧
    isJArr (sanitizeFields fields).contacts = true ∧
    isJNum (sanitizeFields fields).confidence = true ∧
    (isJStr (sanitizeFields fields).title = true ∨
      (truthy (sanitizeFields fields).title = true ∧
        getField fields titleKey = some (sanitizeFields fields).title)) ∧
    (isJStr (sanitizeFields fields).content = true ∨
      (truthy (sanitizeFields fields).content = true ∧
        getField fields contentKey = some (sanitizeFields fields).content)) ∧
    (isJStr (sanitizeFields fields).category = true ∨
      (truthy (sanitizeFields fields).category = true ∧
        getField fields categoryKey = some (sanitizeFields fields).category)) ∧
    (isJStr (sanitizeFields fields).raw_text = true ∨
      (truthy (sanitizeFields fields).raw_text = true ∧
        (getField fields rawKey = some (sanitizeFields fields).raw_text ∨
          getField fields contentKey = some (sanitizeFields fields).raw_text))) := by
  refine ⟨isJArr_arrOrEmpty _, isJArr_arrOrEmpty _, isJArr_arrOrEmpty _, isJNum_confOf _,
    ?_, ?_, ?_, ?_⟩
  · rcases orDefault_cases (getField fields titleKey) (Json.str untitledNote) with h | ⟨h1, h2⟩
    · exact Or.inl (by rw [show (sanitizeFields fields).title
        = orDefault (getField fields titleKey) (Json.str untitledNote) from rfl, h]; rfl)
    · exact Or.inr ⟨h1, h2⟩
  · rcases orDefault_cases (getField fields contentKey) (Json.str []) with h | ⟨h1, h2⟩
    · exact Or.inl (by rw [show (sanitizeFields fields).content
        = orDefault (getField fields contentKey) (Json.str []) from rfl, h]; rfl)
    · exact Or.inr ⟨h1, h2⟩
  · rcases orDefault_cases (getField fields categoryKey) (Json.str noteLit) with h | ⟨h1, h2⟩
    · exact Or.inl (by rw [show (sanitizeFields fields).category
        = orDefault (getField fields categoryKey) (Json.str noteLit) from rfl, h]; rfl)
    · exact Or.inr ⟨h1, h2⟩
  · rcases orDefault_cases (getField fields rawKey)
      (orDefault (getField fields contentKey) (Json.str [])) with h | ⟨h1, h2⟩
    · rcases orDefault_cases (getField fields contentKey) (Json.str []) with g | ⟨g1, g2⟩
      · exact Or.inl (by rw [show (sanitizeFields fields).raw_text
          = orDefault (getField fields rawKey)
            (orDefault (getField fields contentKey) (Json.str [])) from rfl, h, g]; rfl)
      · refine Or.inr ⟨?_, Or.inr ?_⟩
        · rw [show (sanitizeFields fields).raw_text
            = orDefault (getField fields rawKey)
              (orDefault (getField fields contentKey) (Json.str [])) from rfl, h]
          exact g1
        · rw [show (sanitizeFields fields).raw_text
            = orDefault (getField fields rawKey)
              (orDefault (getField fields contentKey) (Json.str [])) from rfl, h]
          exact g2
    · exact Or.inr ⟨h1, Or.inl h2⟩

/-- C4: a numeric confidence is clamped into the unit interval (so the
sanitized confidence is always in [0, 1] for numeric inputs), the inputs
-5, 0.5 and 2.3 map to 0, 0.5 and 1 respectively, and every non-numeric
confidence becomes the default 0.8. -/
theorem C4_confidence_clamped :
    (∀ (fields : List (Str × Json)) (q : ℚ),
      getField fields confKey = some (Json.num q) →
      (sanitizeFields fields).confidence = Json.num (max 0 (min 1 q)) ∧
      0 ≤ max 0 (min 1 q) ∧ max 0 (min 1 q) ≤ 1) ∧
    (sanitizeFields [(confKey, Json.num (-5))]).confidence = Json.num 0 ∧
    (sanitizeFields [(confKey, Json.num (0.5 : ℚ))]).confidence = Json.num (0.5 : ℚ) ∧
    (sanitizeFields [(confKey, Json.num (2.3 : ℚ))]).confidence = Json.num 1 ∧
    (∀ fields : List (Str × Json), (∀ q : ℚ, getField fields confKey ≠ some (Json.num q)) →
      (sanitizeFields fields).confidence = Json.num (0.8 : ℚ)) := by
  refine ⟨?_, ?_, ?_, ?_, ?_⟩
  · intro fields q h
    refine ⟨?_, le_max_left 0 _, max_le (by norm_num) (min_le_left 1 q)⟩
    rw [show (sanitizeFields fields).confidence = confOf (getField fields confKey) from rfl, h]
    rfl
  · show Json.num (max 0 (min 1 (-5 : ℚ))) = Json.num 0
    exact congrArg Json.num (by norm_num)
  · show Json.num (max 0 (min 1 (0.5 : ℚ))) = Json.num (0.5 : ℚ)
    exact congrArg Json.num (by norm_num)
  · show Json.num (max 0 (min 1 (2.3 : ℚ))) = Json.num 1
    exact congrArg Json.num (by norm_num)
  · intro fields h
    rw [show (sanitizeFields fields).confidence = confOf (getField fields confKey) from rfl]
    cases hg : getField fields confKey with
    | none => rfl
    | some j =>
      cases j with
      | num q => exact absurd hg (h q)
      | null => rfl
      | bool b => rfl
      | str s => rfl
      | arr xs => rfl
      | obj fs => rfl

/-- C4 witness: the clamping statement applied at the concrete input 0.5. -/
theorem C4_confidence_clamped_witness :
    (sanitizeFields [(confKey, Json.num (0.5 : ℚ))]).confidence
      = Json.num (max 0 (min 1 (0.5 : ℚ))) ∧
    0 ≤ max 0 (min 1 (0.5 : ℚ)) ∧ max 0 (min 1 (0.5 : ℚ)) ≤ 1 :=
  C4_confidence_clamped.1 [(confKey, Json.num (0.5 : ℚ))] (0.5 : ℚ) rfl

/-- C8 counterexample: a reply whose raw_text field is present as the EMPTY
string does not keep it; the empty string is falsy, so the sanitizer falls
back to the content value "x". -/
theorem C8_counterexample :
    getField [(rawKey, Json.str []), (contentKey, Json.str ['x'])] rawKey
      = some (Json.str []) ∧
    (sanitizeFields [(rawKey, Json.str []), (contentKey, Json.str ['x'])]).raw_text
      = Json.str ['x'] ∧
    (['x'] : Str) ≠ [] :=
  ⟨rfl, rfl, by decide⟩

/-- C8 (amended): the sanitized rawText equals the reply's raw_text field
whenever that field is truthy (in particular whenever it is a non-empty
string); when raw_text is absent or falsy — the empty string included — it
equals the already-resolved content value (hence the empty string when
content is also absent or falsy).  This fallback makes rawText the one field
whose value can depend on another reply field. -/
theorem C8_rawtext_fallback :
    (∀ (fields : List (Str × Json)) (v : Json),
      getField fields rawKey = some v → truthy v = true →
      (sanitizeFields fields).raw_text = v) ∧
    (∀ fields : List (Str × Json), truthyOpt (getField fields rawKey) = false →
      (sanitizeFields fields).raw_text = (sanitizeFields fields).content) := by
  constructor
  · intro fields v h ht
    rw [show (sanitizeFields fields).raw_text
      = orDefault (getField fields rawKey) (orDefault (getField fields contentKey) (Json.str []))
      from rfl, h]
    exact orDefault_of_truthy _ ht
  · intro fields h
    rw [show (sanitizeFields fields).raw_text
      = orDefault (getField fields rawKey) (orDefault (getField fields contentKey) (Json.str []))
      from rfl,
      show (sanitizeFields fields).content
      = orDefault (getField fields contentKey) (Json.str []) from rfl]
    exact orDefault_of_falsy _ h

/-- C8 witness: a truthy raw_text value is kept verbatim. -/
theorem C8_rawtext_fallback_witness :
    (sanitizeFields [(rawKey, Json.str ['r'])]).raw_text = Json.str ['r'] :=
  C8_rawtext_fallback.1 [(rawKey, Json.str ['r'])] (Json.str ['r']) rfl rfl

/-- C2 counterexample: the parsed reply with a numeric category field is
sanitized to a record whose category is the number 7; the formatter then
calls toLowerCase on it and throws (modelled as none), so the formatting
stage does not complete normally for every sanitized record. -/
theorem C2_counterexample :
    formatSan (sanitizeFields [(categoryKey, Json.num 7)]) = none :=
  rfl

/-- C2 (amended): the formatting stage completes normally exactly on the
sanitized records whose category is a string such that, whenever that
category triggers the todo/task formatting, the content is a string too;
in particular it is total on type-correct records, but a truthy non-string
category (or content, under a triggering category) passed through by
sanitization makes it throw. -/
theorem C2_formatter_totality (r : SanitizedNote) :
    (formatSan r).isSome = true ↔
    (∃ cs, r.category = Json.str cs ∧
      (isTodoCat cs = true → ∃ ks, r.content = Json.str ks)) := by
  obtain ⟨t, co, ca, tg, d, cn, cf, rT⟩ := r
  cases ca with
  | str cs =>
    by_cases hd : isTodoCat cs = true
    · cases co <;> simp [formatSan, hd]
    · simp [formatSan, hd]
  | null => simp [formatSan]
  | bool b => simp [formatSan]
  | num q => simp [formatSan]
  | arr xs => simp [formatSan]
  | obj fs => simp [formatSan]

/-- C2 witness: the formatter completes on the all-defaults sanitized
record. -/
theorem C2_formatter_totality_witness :
    (formatSan (sanitizeFields [])).isSome = true :=
  (C2_formatter_totality (sanitizeFields [])).mpr
    ⟨noteLit, rfl, fun h => absurd h (by decide)⟩

/-- A todo note whose single content line has leading whitespace. -/
def noteLeadWs : ExtractedNote :=
  ⟨['t'], "  hi".toList, todoLit, [], [], [], 1, []⟩

/-- A one-line note with the given category and content, used as a concrete
formatter input. -/
def mkTNote (cat content : Str) : ExtractedNote :=
  ⟨['t'], content, cat, [], [], [], 1, []⟩

/-- C3 counterexample: on the todo note with content "  hi" the source
formatter produces "☐ hi" (marker prepended to the TRIMMED line), while the
claim's rule — prepend to the original line, preserving its leading
whitespace — produces "☐   hi"; the two differ. -/
theorem C3_counterexample :
    (format noteLeadWs).content = boxU :: ' ' :: "hi".toList ∧
    (formatSpecOrig noteLeadWs).content = boxU :: ' ' :: "  hi".toList ∧
    (format noteLeadWs).content ≠ (formatSpecOrig noteLeadWs).content := by
  refine ⟨rfl, rfl, ?_⟩
  intro h
  have h2 : (boxU :: ' ' :: "hi".toList) = (boxU :: ' ' :: "  hi".toList) := h
  exact absurd h2 (by decide)

/-- C3 (amended): the formatter is triggered exactly by a case-insensitive
category match with "todo" or "task" ("Todo", "TASK", "todo" trigger it,
"note" never does); when triggered, content is split on newlines and every
line whose trimmed form is non-empty and not already starting with ☑ or ☐
is replaced by "☐ " followed by the TRIMMED line (the line's leading and
trailing whitespace are discarded), empty or already-marked lines pass
through unchanged, and the lines are rejoined with newline; when not
triggered, format is the identity. -/
theorem C3_formatter_contract :
    (∀ n : ExtractedNote, format n = formatSpecTrimmed n) ∧
    (format (mkTNote "Todo".toList ['a'])).content = boxU :: ' ' :: ['a'] ∧
    (format (mkTNote "TASK".toList ['a'])).content = boxU :: ' ' :: ['a'] ∧
    (format (mkTNote "todo".toList ['a'])).content = boxU :: ' ' :: ['a'] ∧
    format (mkTNote noteLit ['a']) = mkTNote noteLit ['a'] := by
  refine ⟨?_, rfl, rfl, rfl, rfl⟩
  intro n
  unfold format formatSpecTrimmed
  rw [specTrigger_eq_isTodoCat]
  by_cases h : isTodoCat n.category = true
  · rw [if_pos h, if_pos h]
    have : formatContent n.content
        = joinC '\n' ((splitOnC '\n' n.content).map specLineTrimmed) := by
      unfold formatContent
      exact congrArg (joinC '\n')
        (List.map_congr_left fun a _ => (specLineTrimmed_eq_lineStep a).symm)
    rw [this]
  · rw [if_neg h, if_neg h]

/-- C3 witness: the contract equality at the concrete "Todo" note. -/
theorem C3_formatter_contract_witness :
    format (mkTNote "Todo".toList ['a']) = formatSpecTrimmed (mkTNote "Todo".toList ['a']) :=
  C3_formatter_contract.1 (mkTNote "Todo".toList ['a'])

/-- C5: the formatter is idempotent on ExtractedNote records: a second
application changes nothing, since every produced line is empty or already
carries a marker glyph. -/
theorem C5_format_idempotent (x : ExtractedNote) : format (format x) = format x := by
  obtain ⟨t, co, ca, tg, d, cn, cf, rT⟩ := x
  unfold format
  by_cases h : isTodoCat ca = true
  · simp [h, formatContent_idem]
  · simp [h]

/-- C5 witness: idempotence at a concrete todo note. -/
theorem C5_format_idempotent_witness :
    format (format (mkTNote todoLit "a\nb".toList)) = format (mkTNote todoLit "a\nb".toList) :=
  C5_format_idempotent (mkTNote todoLit "a\nb".toList)

/-! ### Helper lemmas for the JSON-extraction claim -/

theorem braceSpan_cons_ne (c0 : Char) (s : Str) (hc : c0 ≠ lbrace) :
    braceSpan (c0 :: s) = braceSpan s := by
  unfold braceSpan
  rw [show (c0 :: s).dropWhile (fun c => !(c = lbrace : Bool))
    = s.dropWhile (fun c => !(c = lbrace : Bool)) from by
      rw [List.dropWhile_cons]
      simp [hc]]

theorem braceSpan_lbrace_none_iff (s : Str) :
    braceSpan (lbrace :: s) = none ↔ rbrace ∉ s := by
  unfold braceSpan
  rw [show (lbrace :: s).dropWhile (fun c => !(c = lbrace : Bool)) = lbrace :: s from by
    rw [List.dropWhile_cons]
    simp]
  show (match ((lbrace :: s).reverse).dropWhile (fun c => !(c = rbrace : Bool)) with
    | [] => none
    | u0 :: u => some ((u0 :: u).reverse)) = none ↔ rbrace ∉ s
  cases hd : ((lbrace :: s).reverse).dropWhile (fun c => !(c = rbrace : Bool)) with
  | nil =>
    constructor
    · intro _
      intro hmem
      have hall := List.dropWhile_eq_nil_iff.mp hd
      have hin : rbrace ∈ (lbrace :: s).reverse :=
        List.mem_reverse.mpr (List.mem_cons_of_mem lbrace hmem)
      have := hall rbrace hin
      simp at this
    · intro _
      rfl
  | cons u0 u =>
    constructor
    · intro habs
      exact Option.noConfusion habs
    · intro hnot
      exfalso
      have hu0 : (fun c => !(c = rbrace : Bool)) u0 = false := dropWhile_cons_false _ u0 u hd
      have hu0r : u0 = rbrace := by simpa using hu0
      have humem : u0 ∈ ((lbrace :: s).reverse).dropWhile (fun c => !(c = rbrace : Bool)) := by
        rw [hd]
        exact List.mem_cons_self u0 u
      have hin : u0 ∈ (lbrace :: s).reverse :=
        (List.dropWhile_sublist (fun c => !(c = rbrace : Bool))).mem humem
      have hmem2 : u0 ∈ lbrace :: s := List.mem_reverse.mp hin
      rcases List.mem_cons.mp hmem2 with h | h
      · rw [hu0r] at h
        exact absurd h (by decide)
      · exact hnot (hu0r ▸ h)

theorem braceSpan_none_iff (s : Str) :
    braceSpan s = none ↔ ¬ ∃ a b c : Str, s = a ++ lbrace :: (b ++ rbrace :: c) := by
  induction s with
  | nil =>
    constructor
    · intro _ h
      obtain ⟨a, b, c, habc⟩ := h
      exact absurd habc (by simp)
    · intro _
      rfl
  | cons c0 s ih =>
    by_cases hc : c0 = lbrace
    · subst hc
      rw [braceSpan_lbrace_none_iff]
      constructor
      · intro hnb h
        obtain ⟨a, b, c, habc⟩ := h
        cases a with
        | nil =>
          have hs : s = b ++ rbrace :: c := by
            simpa using habc
          exact hnb (by
            rw [hs]
            exact List.mem_append_right b (List.mem_cons_self rbrace c))
        | cons a0 a2 =>
          have hs : s = a2 ++ lbrace ::(b ++ rbrace :: c) := by
            have h2 := (List.cons.injEq lbrace s a0 (a2 ++ lbrace :: (b ++ rbrace :: c))).mp
              (by simpa using habc)
            exact h2.2
          exact hnb (by
            rw [hs]
            refine List.mem_append_right a2 ?_
            refine List.mem_cons_of_mem lbrace ?_
            exact List.mem_append_right b (List.mem_cons_self rbrace c))
      · intro hnp hmem
        obtain ⟨b, c, hbc⟩ := List.append_of_mem hmem
        exact hnp ⟨[], b, c, by rw [hbc]; rfl⟩
    · rw [braceSpan_cons_ne c0 s hc, ih]
      constructor
      · intro hnp h
        obtain ⟨a, b, c, habc⟩ := h
        cases a with
        | nil =>
          have h1 : c0 = lbrace := by
            have h2 := (List.cons.injEq c0 s lbrace (b ++ rbrace :: c)).mp (by simpa using habc)
            exact h2.1
          exact hc h1
        | cons a0 a2 =>
          have hs : s = a2 ++ lbrace :: (b ++ rbrace :: c) := by
            have h2 := (List.cons.injEq c0 s a0 (a2 ++ lbrace :: (b ++ rbrace :: c))).mp
              (by simpa using habc)
            exact h2.2
          exact hnp ⟨a2, b, c, hs⟩
      · intro hnp h
        obtain ⟨a, b, c, habc⟩ := h
        exact hnp ⟨c0 :: a, b, c, by rw [habc]; rfl⟩

theorem sanitizeReply_no_span {s : Str} (hs : s.isEmpty = false)
    (hb : braceSpan s = none) : sanitizeReply s = .error noJsonMsg := by
  unfold sanitizeReply
  rw [hs]
  simp only [Bool.false_eq_true, if_false]
  rw [hb]

theorem sanitizeReply_parse_fail {s sp : Str} (hs : s.isEmpty = false)
    (hb : braceSpan s = some sp) (hp : jsonParse sp = none) :
    sanitizeReply s = .error parseFailMsg := by
  unfold sanitizeReply
  rw [hs]
  simp only [Bool.false_eq_true, if_false]
  rw [hb]
  show (match jsonParse sp with
    | some j => Except.ok (sanitizeJson j)
    | none => Except.error parseFailMsg) = Except.error parseFailMsg
  rw [hp]

theorem sanitizeReply_parse_ok {s sp : Str} {j : Json} (hs : s.isEmpty = false)
    (hb : braceSpan s = some sp) (hp : jsonParse sp = some j) :
    sanitizeReply s = .ok (sanitizeJson j) := by
  unfold sanitizeReply
  rw [hs]
  simp only [Bool.false_eq_true, if_false]
  rw [hb]
  show (match jsonParse sp with
    | some j => Except.ok (sanitizeJson j)
    | none => Except.error parseFailMsg) = Except.ok (sanitizeJson j)
  rw [hp]

theorem sanitizeReply_err_iff (s : Str) :
    isErrR (sanitizeReply s) = true ↔
    (s = [] ∨ braceSpan s = none ∨ ∃ sp, braceSpan s = some sp ∧ jsonParse sp = none) := by
  by_cases hs : s = []
  · subst hs
    simp [sanitizeReply, isErrR]
  · have hne : s.isEmpty = false := by
      cases s with
      | nil => exact absurd rfl hs
      | cons a t => rfl
    cases hb : braceSpan s with
    | none =>
      rw [sanitizeReply_no_span hne hb]
      constructor
      · intro _
        exact Or.inr (Or.inl rfl)
      · intro _
        rfl
    | some sp =>
      cases hp : jsonParse sp with
      | none =>
        rw [sanitizeReply_parse_fail hne hb hp]
        constructor
        · intro _
          exact Or.inr (Or.inr ⟨sp, rfl, hp⟩)
        · intro _
          rfl
      | some j =>
        rw [sanitizeReply_parse_ok hne hb hp]
        constructor
        · intro hfalse
          simp [isErrR] at hfalse
        · rintro (h1 | h2 | ⟨sp2, hsp2, hp2⟩)
          · exact absurd h1 hs
          · exact Option.noConfusion h2
          · rw [Option.some.injEq] at hsp2
            rw [← hsp2, hp] at hp2
            exact Option.noConfusion hp2

/-- The reply text of the spec's JSON-extraction example. -/
def exReply : Str := "Here is the result:\n\x7b\"title\":\"X\"\x7d\nThanks!".toList

/-- The JSON span extracted from that reply. -/
def exSpan : Str := "\x7b\"title\":\"X\"\x7d".toList

/-- C7: sanitize fails exactly when the reply is empty, when it has no
substring that starts with an opening brace and ends with a closing brace
(equivalently, when the greedy first-brace-to-last-brace match finds
nothing), or when the matched span does not parse as JSON; on the example
reply it extracts and parses the braced span, fills every remaining field
with its default, and the braceless reply "no braces here" fails. -/
theorem C7_sanitize_extraction :
    (∀ s : Str, isErrR (sanitizeReply s) = true ↔
      (s = [] ∨ braceSpan s = none ∨ ∃ sp, braceSpan s = some sp ∧ jsonParse sp = none)) ∧
    (∀ s : Str, braceSpan s = none ↔
      ¬ ∃ a b c : Str, s = a ++ lbrace :: (b ++ rbrace :: c)) ∧
    braceSpan exReply = some exSpan ∧
    sanitizeReply exReply = .ok (sanitizeFields [(titleKey, Json.str ['X'])]) ∧
    (sanitizeFields [(titleKey, Json.str ['X'])]).title = Json.str ['X'] ∧
    (sanitizeFields [(titleKey, Json.str ['X'])]).content = Json.str [] ∧
    (sanitizeFields [(titleKey, Json.str ['X'])]).category = Json.str noteLit ∧
    (sanitizeFields [(titleKey, Json.str ['X'])]).tags = Json.arr [] ∧
    (sanitizeFields [(titleKey, Json.str ['X'])]).dates = Json.arr [] ∧
    (sanitizeFields [(titleKey, Json.str ['X'])]).contacts = Json.arr [] ∧
    (sanitizeFields [(titleKey, Json.str ['X'])]).confidence = Json.num (0.8 : ℚ) ∧
    (sanitizeFields [(titleKey, Json.str ['X'])]).raw_text = Json.str [] ∧
    isErrR (sanitizeReply ("no braces here".toList)) = true :=
  ⟨sanitizeReply_err_iff, braceSpan_none_iff, by decide, rfl, rfl, rfl, rfl, rfl, rfl, rfl,
    rfl, rfl, rfl⟩

/-- C7 witness: the failure characterization applied to the braceless
reply. -/
theorem C7_sanitize_extraction_witness :
    isErrR (sanitizeReply ("nothing structured".toList)) = true :=
  (C7_sanitize_extraction.1 ("nothing structured".toList)).mpr (Or.inr (Or.inl (by decide)))

/-! ### Endpoint claims -/

theorem runPipe_hasPT (pipe : Except Str SanitizedNote) :
    (runPipe pipe).hasProcessingTime = true := by
  cases pipe with
  | ok n => rfl
  | error m =>
    show (if containsSub quotaLit m = true then HttpReply.mk 429 true true
      else HttpReply.mk 500 true true).hasProcessingTime = true
    by_cases h : containsSub quotaLit m = true
    · rw [if_pos h]
    · rw [if_neg h]

theorem runPipe_status_cases (pipe : Except Str SanitizedNote) :
    (runPipe pipe).status = 200 ∨ (runPipe pipe).status = 429 ∨ (runPipe pipe).status = 500 := by
  cases pipe with
  | ok n => exact Or.inl rfl
  | error m =>
    have hr : runPipe (Except.error m) = if containsSub quotaLit m = true
        then HttpReply.mk 429 true true else HttpReply.mk 500 true true := rfl
    rw [hr]
    by_cases h : containsSub quotaLit m = true
    · rw [if_pos h]
      exact Or.inr (Or.inl rfl)
    · rw [if_neg h]
      exact Or.inr (Or.inr rfl)

theorem runPipe_status_ne_400 (pipe : Except Str SanitizedNote) :
    (runPipe pipe).status ≠ 400 := by
  rcases runPipe_status_cases pipe with h | h | h <;> rw [h] <;> decide

/-- The all-defaults sanitized record, used as a concrete pipeline result. -/
def defNote : SanitizedNote := sanitizeFields []

/-- A data URL whose declared MIME type is not an image type. -/
def badDataUrl : Str := "data:text/plain;base64,AAAA".toList

/-- C6 counterexample: on the JSON-body path, a data-URL image whose MIME
type is text/plain (not image/*) passes normalization without any
InvalidInput error and reaches the pipeline (responding 200 when the
pipeline succeeds), so the claim that normalization rejects non-image MIME
types on every accepted source shape is false. -/
theorem C6_counterexample :
    mimeOfDataUrl badDataUrl = "text/plain".toList ∧
    hasPre imagePre (mimeOfDataUrl badDataUrl) = false ∧
    processNoteRoute true (.jsonBody (some (Json.str badDataUrl))) (Except.ok defNote)
      = ⟨200, false, true⟩ :=
  ⟨rfl, rfl, rfl⟩

/-- A file of exactly 10 MiB with an image MIME type. -/
def tenMiBFile : MPFile := ⟨List.replicate maxImageBytes 0, "image/png".toList⟩

/-- A file one byte over 10 MiB with an image MIME type. -/
def overMiBFile : MPFile := ⟨List.replicate (maxImageBytes + 1) 0, "image/png".toList⟩

/-- A small file with a non-image MIME type. -/
def smallBadFile : MPFile := ⟨[0], "text/plain".toList⟩

/-- C6 (amended): the MIME-prefix check, the 10 MiB size bound (a payload of
exactly 10 MiB passes, one byte over fails) and the presence check apply on
the multipart path, where a 400 InvalidInput response arises exactly when
the file is missing, oversized, or not image/*; the JSON-body path rejects
only an absent or empty image string and applies no MIME or size check. -/
theorem C6_input_validation :
    (∀ (f : MPFile) (pipe : Except Str SanitizedNote),
      (processNoteRoute true (.multipart (some (.ffile f)) none) pipe).status = 400 ↔
      (f.bytes.length > maxImageBytes ∨ hasPre imagePre f.ftype = false)) ∧
    (∀ (opts : Option FormVal) (pipe : Except Str SanitizedNote),
      (processNoteRoute true (.multipart none opts) pipe).status = 400) ∧
    (∀ pipe : Except Str SanitizedNote,
      (processNoteRoute true (.multipart (some (.ffile tenMiBFile)) none) pipe).status ≠ 400) ∧
    (∀ pipe : Except Str SanitizedNote,
      (processNoteRoute true (.multipart (some (.ffile overMiBFile)) none) pipe).status = 400) ∧
    (∀ (img : Str) (pipe : Except Str SanitizedNote),
      (processNoteRoute true (.jsonBody (some (Json.str img))) pipe).status = 400 ↔ img = []) := by
  refine ⟨?_, ?_, ?_, ?_, ?_⟩
  · intro f pipe
    by_cases hsz : f.bytes.length > maxImageBytes
    · simp [processNoteRoute, hsz]
    · by_cases hty : hasPre imagePre f.ftype = true
      · simp [processNoteRoute, hsz, hty, runPipe_status_ne_400 pipe]
      · simp [processNoteRoute, hsz, hty]
  · intro opts pipe
    rfl
  · intro pipe
    have hlen : tenMiBFile.bytes.length = maxImageBytes := by
      simp [tenMiBFile]
    have hty : hasPre imagePre tenMiBFile.ftype = true := by decide
    simp [processNoteRoute, hlen, hty, runPipe_status_ne_400 pipe]
  · intro pipe
    have hlen : overMiBFile.bytes.length = maxImageBytes + 1 := by
      simp [overMiBFile]
    simp [processNoteRoute, hlen, maxImageBytes]
  · intro img pipe
    cases img with
    | nil => simp [processNoteRoute, truthyOpt, truthy]
    | cons a t => simp [processNoteRoute, truthyOpt, truthy, runPipe_status_ne_400 pipe]

/-- C6 witness: a small multipart file of non-image MIME type is rejected
with 400. -/
theorem C6_input_validation_witness :
    (processNoteRoute true (.multipart (some (.ffile smallBadFile)) none)
      (Except.ok defNote)).status = 400 :=
  (C6_input_validation.1 smallBadFile (Except.ok defNote)).mpr (Or.inr (by decide))

/-- C9 counterexample: the JSON-body request with a missing image yields an
error response (400 "No image data provided") WITHOUT processing_time_ms,
so the claim that every error response reports the elapsed time is false. -/
theorem C9_counterexample :
    (processNoteRoute true (.jsonBody none) (Except.ok defNote)).isError = true ∧
    (processNoteRoute true (.jsonBody none) (Except.ok defNote)).hasProcessingTime = false :=
  ⟨rfl, rfl⟩

/-- C9 (amended): the success response and the caught-failure responses
(quota 429 and catch-all 500) carry processing_time_ms, but the early
validation error responses (the 400-class invalid-input errors and the
missing-API-key 500) do not: a response carries processing_time_ms exactly
when its status is 200, 429, or a 500 produced with the API key present. -/
theorem C9_processing_time :
    ∀ (key : Bool) (body : ReqBody) (pipe : Except Str SanitizedNote),
      (processNoteRoute key body pipe).hasProcessingTime = true ↔
      ((processNoteRoute key body pipe).status = 200 ∨
        (processNoteRoute key body pipe).status = 429 ∨
        ((processNoteRoute key body pipe).status = 500 ∧ key = true)) := by
  intro key body pipe
  cases key with
  | false => simp [processNoteRoute]
  | true =>
    cases body with
    | multipart img opts =>
      cases img with
      | none => simp [processNoteRoute]
      | some fv =>
        cases fv with
        | fstr s => simp [processNoteRoute]
        | ffile f =>
          by_cases hsz : f.bytes.length > maxImageBytes
          · simp [processNoteRoute, hsz]
          · by_cases hty : hasPre imagePre f.ftype = true
            · cases opts with
              | none =>
                simp only [processNoteRoute, hsz, hty]
                simp only [Bool.not_true, Bool.false_eq_true, if_false, if_neg hsz]
                rcases runPipe_status_cases pipe with h | h | h <;>
                  simp [h, runPipe_hasPT pipe]
              | some ov =>
                cases ov with
                | fstr os =>
                  by_cases hjp : (jsonParse os).isNone = true
                  · simp [processNoteRoute, hsz, hty, hjp]
                  · simp only [processNoteRoute, hsz, hty, hjp]
                    simp only [Bool.not_true, Bool.false_eq_true, if_false, if_neg hsz]
                    rcases runPipe_status_cases pipe with h | h | h <;>
                      simp [hjp, h, runPipe_hasPT pipe]
                | ffile f2 =>
                  simp only [processNoteRoute, hsz, hty]
                  simp only [Bool.not_true, Bool.false_eq_true, if_false, if_neg hsz]
                  rcases runPipe_status_cases pipe with h | h | h <;>
                    simp [h, runPipe_hasPT pipe]
            · simp [processNoteRoute, hsz, hty]
    | jsonBody img =>
      by_cases ht : truthyOpt img = true
      · simp only [processNoteRoute, ht]
        rcases runPipe_status_cases pipe with h | h | h <;>
          simp [h, runPipe_hasPT pipe]
      · simp [processNoteRoute, ht]

/-- C9 witness: a quota failure after validation responds 429 with
processing_time_ms present. -/
theorem C9_processing_time_witness :
    (processNoteRoute true (.jsonBody (some (Json.str ['x'])))
      (Except.error ("quota exceeded".toList))).hasProcessingTime = true :=
  (C9_processing_time true (.jsonBody (some (Json.str ['x'])))
    (Except.error ("quota exceeded".toList))).mpr (Or.inr (Or.inl rfl))

/-- C10: at the MCP tool interface every image string that does not start
with "data:image/" is rejected with an error-flagged result before the
pipeline is invoked, while the REST JSON-body path applies no such prefix,
MIME or size check: any non-empty image string goes straight to the
pipeline phase. -/
theorem C10_mcp_gate_vs_rest :
    (∀ img : Str, hasPre dataImagePre img = false → mcpToolGate true img = McpGate.badFormat) ∧
    (∀ (img : Str) (pipe : Except Str SanitizedNote), img ≠ [] →
      processNoteRoute true (.jsonBody (some (Json.str img))) pipe = runPipe pipe) := by
  constructor
  · intro img h
    simp [mcpToolGate, h]
  · intro img pipe h
    cases img with
    | nil => exact absurd rfl h
    | cons a t => rfl

/-- C10 witness: the concrete non-image string "hello" is rejected by the
MCP gate but forwarded by the REST JSON path. -/
theorem C10_mcp_gate_vs_rest_witness :
    mcpToolGate true ("hello".toList) = McpGate.badFormat ∧
    processNoteRoute true (.jsonBody (some (Json.str ("hello".toList)))) (Except.ok defNote)
      = runPipe (Except.ok defNote) :=
  ⟨C10_mcp_gate_vs_rest.1 ("hello".toList) (by decide),
    C10_mcp_gate_vs_rest.2 ("hello".toList) (Except.ok defNote) (by decide)⟩

end Scribble
